import Mathlib

/-!
Shallow embedding of `cmd/hcp-to-wiki/main.go`: a program that converts a CSV
export of home-computer price adverts into wiki tables of minimum price per
system per quarter.

Modelling conventions:
* Go `string` fields are modelled as `List Char` (sequences of Unicode code
  points).  Every text the program slices byte-wise (`yyyy_mm[4:5]`,
  `page_num_text[0]`) is ASCII in all the inputs considered here, where byte
  indexing and code-point indexing coincide; `handle_price` converts to runes
  explicitly in the source, so `List Char` is exact there.
* Go functions that can panic at runtime (index/slice out of range) are
  embedded with result type `Option _`; `none` is the panic outcome.
* Go `int` is embedded as `Int`; `strconv.Atoi` is 64-bit, returning 0 on a
  syntax error and a clamped value on overflow, together with a non-nil error.
* Go's truncating integer division is `Int.tdiv`.
* A Go `map[string][]int` is embedded as an association list whose order is
  the iteration order of the map (in Go that order is unspecified).
-/

namespace Hcp

/-- Maximum price allowed (constant `max_price` in main.go). -/
def max_price : Int := 100000

/-- Maximum magazine page number (constant `max_page_num`). -/
def max_page_num : Int := 500

/-- Earliest acceptable year (constant `min_year`). -/
def min_year : Int := 1945

/-- Latest acceptable year (constant `max_year`). -/
def max_year : Int := 2099

/-- The distinct error sites of the three field parsers.  The Go source
produces `fmt.Errorf` values; only presence and identity of the error matter
to the control flow, so an enumeration is enough. -/
inductive ParseErr where
  | badSeparator      -- "bad YYYY-MM separator"
  | badLength         -- "bad YYYY-MM: length invalid"
  | badYearDigits     -- "bad Year digits"
  | badYearRange      -- "bad Year ... outside range"
  | badMonthDigits    -- "bad Month digits"
  | badMonthRange     -- "bad Month"
  | badPageShort      -- "bad page number text"
  | badPagePrefix     -- "bad page number format"
  | badPageDigits     -- "bad page number data"
  | badPageValue      -- "bad page number value"
  | badCurrency       -- "bad Price Currency"
  | badPriceDigits    -- "bad Price Data"
  | priceTooLarge     -- "unlikely Price Data (greater than max_price)"
  deriving DecidableEq, Repr

/-- Largest Go int64. -/
def int64Max : Int := 9223372036854775807

/-- Smallest Go int64. -/
def int64Min : Int := -9223372036854775808

/-- Numeric value of a list of decimal digit characters. -/
def digitsVal (ds : List Char) : Nat :=
  ds.foldl (fun a c => a * 10 + (c.toNat - 48)) 0

/-- Go `strconv.Atoi`: optional sign, then one or more decimal digits.
Returns `(value, ok)`.  On a syntax error the value is 0; on 64-bit overflow
the value is clamped to the int64 range; in both cases `ok = false`
(mirroring Go's non-nil `error` return). -/
def atoi (s : List Char) : Int × Bool :=
  let signed : Bool × List Char :=
    match s with
    | '+' :: r => (false, r)
    | '-' :: r => (true, r)
    | r => (false, r)
  let neg := signed.1
  let ds := signed.2
  if ds.isEmpty || !(ds.all Char.isDigit) then (0, false)
  else
    let v : Int := if neg then -(digitsVal ds : Int) else (digitsVal ds : Int)
    if v > int64Max then (int64Max, false)
    else if v < int64Min then (int64Min, false)
    else (v, true)

/-- `handle_yyyy_mm` from main.go.  Result is `none` when the Go code panics
(the very first statement slices `yyyy_mm[4:5]`, which is out of range for
strings shorter than 5 bytes); otherwise `some (year, month, err?)` exactly
as the Go function returns them, including the returned year/month values on
the error paths and the "last error wins" overwriting of `local_err`. -/
def handle_yyyy_mm (yyyy_mm : List Char) : Option (Int × Int × Option ParseErr) :=
  if yyyy_mm.length < 5 then
    none
  else
    let date_sep := (yyyy_mm.drop 4).take 1
    let e1 : Option ParseErr :=
      if date_sep ≠ ['-'] then some .badSeparator
      else if yyyy_mm.length ≠ 7 then some .badLength
      else none
    let year_text := yyyy_mm.take 4
    let yearRes := atoi year_text
    let year := yearRes.1
    let e2 : Option ParseErr :=
      if !yearRes.2 then some .badYearDigits
      else if year < min_year ∨ year > max_year then some .badYearRange
      else e1
    let month_text := yyyy_mm.drop 5
    let monthRes := atoi month_text
    let month := monthRes.1
    let e3 : Option ParseErr :=
      if !monthRes.2 then some .badMonthDigits
      else if month < 1 ∨ month > 12 then some .badMonthRange
      else e2
    some (year, month, e3)

/-- `handle_page_number` from main.go: `(page, err?)`.  The initial value of
the named return `page` is -1000; note that on an out-of-range or
non-numeric page the function still returns the value `strconv.Atoi`
produced (0 on a syntax error), and the caller stores it.  Total: the length
guard runs before any indexing. -/
def handle_page_number (page_num_text : List Char) : Int × Option ParseErr :=
  if page_num_text.length < 2 then
    (-1000, some .badPageShort)
  else if page_num_text.take 1 ≠ ['p'] then
    (-1000, some .badPagePrefix)
  else
    let r := atoi (page_num_text.drop 1)
    let page := r.1
    let e1 : Option ParseErr := if !r.2 then some .badPageDigits else none
    let e2 : Option ParseErr :=
      if page < 0 ∨ page > max_page_num then some .badPageValue else e1
    (page, e2)

/-- `strings.SplitN(s, ".", 2)[0]`: everything before the first dot. -/
def truncAtDot (s : List Char) : List Char :=
  s.takeWhile (fun c => c ≠ '.')

/-- `strings.ReplaceAll(s, ",", "")`: drop every comma. -/
def stripCommas (s : List Char) : List Char :=
  s.filter (fun c => c ≠ ',')

/-- `handle_price` from main.go.  Result is `none` when the Go code panics
(`[]rune(price_text)[0]` is out of range for the empty string); otherwise
`some (price, err?)` as the Go function returns them (price -1 on every
error path).  The remainder is truncated at the first '.', commas are
stripped, and `strconv.Atoi` is applied; only the upper bound `max_price`
is checked on the parsed number. -/
def handle_price (price_text : List Char) : Option (Int × Option ParseErr) :=
  match price_text with
  | [] => none
  | price_currency :: rest =>
    let price_value := stripCommas (truncAtDot rest)
    if price_currency ≠ '£' then
      some (-1, some .badCurrency)
    else
      let r := atoi price_value
      if !r.2 then some (-1, some .badPriceDigits)
      else if r.1 > max_price then some (-1, some .priceTooLarge)
      else some (r.1, none)

/-- One CSV row after the column positions `adv_magazine .. adv_board` have
been bound to names (the source indexes a `[]string` with those constants;
rows are taken to have the fixed 8-column shape the program requires). -/
structure RawRow where
  magazine : List Char
  yyyy_mm : List Char
  page_num : List Char
  system : List Char
  price : List Char
  blank1 : List Char
  kit : List Char
  board : List Char
  deriving DecidableEq, Repr

/-- `advertInfo` from main.go. -/
structure advertInfo where
  row : Int
  magazine : List Char
  year : Int
  month : Int
  page : Int
  system : List Char
  price : Int
  kit : List Char
  board : List Char
  deriving DecidableEq, Repr

/-- The literal header marker "Source". -/
def sourceMarker : List Char := ['S', 'o', 'u', 'r', 'c', 'e']

/-- `buildIndexFromAdvertInfo`: quarter = (month-1)/3 (Go truncating
division), index = year*4 + quarter. -/
def buildIndexFromAdvertInfo (advert : advertInfo) : Int :=
  let quarter := Int.tdiv (advert.month - 1) 3
  advert.year * 4 + quarter

/-- `buildIndexFromYearAndQuarter`: index = year*4 + (quarter-1). -/
def buildIndexFromYearAndQuarter (year : Int) (quarter : Int) : Int :=
  year * 4 + (quarter - 1)

/-- `decodeIndexByQuarter`: year = index/4 (Go truncating division),
quarter = index - year*4 + 1. -/
def decodeIndexByQuarter (index : Int) : Int × Int :=
  let year := Int.tdiv index 4
  (year, index - year * 4 + 1)

/-- The loop body of `parseData`, processing the remaining rows.  `i` is the
0-based position of the head row in the whole CSV (so `csvRowIndex = i+1`),
`searching` is the `searching_for_header` flag, `acc`/`minD`/`maxD` are the
accumulated results.  `none` is the outcome when a field parser panics. -/
def parseDataGo : List RawRow → Nat → Bool → List advertInfo → Int → Int →
    Option (List advertInfo × Int × Int)
  | [], _, _, acc, minD, maxD => some (acc, minD, maxD)
  | row :: rest, i, true, acc, minD, maxD =>
    -- still searching: skip rows up to and including the header marker
    parseDataGo rest (i + 1) (!(row.magazine = sourceMarker)) acc minD maxD
  | row :: rest, i, false, acc, minD, maxD =>
    if row.system.length = 0 then
      -- lines without a system title are ignored
      parseDataGo rest (i + 1) false acc minD maxD
    else
      match handle_yyyy_mm row.yyyy_mm with
      | none => none
      | some (year, month, dateErr) =>
        -- the page is parsed next; its error never invalidates the row
        let pageRes := handle_page_number row.page_num
        match handle_price row.price with
        | none => none
        | some (price, priceErr) =>
          if dateErr.isSome ∨ priceErr.isSome then
            parseDataGo rest (i + 1) false acc minD maxD
          else
            let advert : advertInfo :=
              ⟨(i : Int) + 1, row.magazine, year, month, pageRes.1,
                row.system, price, row.kit, row.board⟩
            let dateIndex := buildIndexFromAdvertInfo advert
            parseDataGo rest (i + 1) false (acc ++ [advert])
              (if dateIndex < minD then dateIndex else minD)
              (if dateIndex > maxD then dateIndex else maxD)

/-- `parseData` from main.go: returns the valid advert records plus the
minimum and maximum quarter index seen (initialised to `(max_year+1)*4`
and -1). -/
def parseData (data : List RawRow) : Option (List advertInfo × Int × Int) :=
  parseDataGo data 0 true [] ((max_year + 1) * 4) (-1)

/-- A Go `map[string][]int`, embedded as an association list; the list order
stands for the map's (unspecified) iteration order. -/
abbrev SysMap := List (List Char × List Int)

/-- Map lookup `m[k]`. -/
def lookupSys (m : SysMap) (k : List Char) : Option (List Int) :=
  match m with
  | [] => none
  | (k', v) :: rest => if k = k' then some v else lookupSys rest k

/-- Map store `m[k] = v`: overwrite the existing entry or add a new one. -/
def setSys (m : SysMap) (k : List Char) (v : List Int) : SysMap :=
  match m with
  | [] => [(k, v)]
  | (k', v') :: rest =>
    if k = k' then (k, v) :: rest else (k', v') :: setSys rest k v

/-- The loop body of `buildBySystem`: process each advert, allocating a
zero-filled series of length `maxDate-minDate+1` the first time a system is
seen, then storing the price at position `index-minDate` when the slot is
unset (≤ 0) or the new price is strictly lower. -/
def buildBySystemGo : List advertInfo → Int → Int → SysMap → SysMap
  | [], _, _, m => m
  | advert :: rest, minDate, maxDate, m =>
    let m1 :=
      match lookupSys m advert.system with
      | some _ => m
      | none =>
        setSys m advert.system (List.replicate (maxDate - minDate + 1).toNat 0)
    let index := buildIndexFromAdvertInfo advert
    let series := (lookupSys m1 advert.system).getD []
    let pos := (index - minDate).toNat
    let storedPrice := series.getD pos 0
    let m2 :=
      if advert.price < storedPrice ∨ storedPrice ≤ 0 then
        setSys m1 advert.system (series.set pos advert.price)
      else m1
    buildBySystemGo rest minDate maxDate m2

/-- `buildBySystem` from main.go. -/
def buildBySystem (adverts : List advertInfo) (minDate maxDate : Int) : SysMap :=
  buildBySystemGo adverts minDate maxDate []

/-- "Apple II". -/
def appleII : List Char := ['A', 'p', 'p', 'l', 'e', ' ', 'I', 'I']

/-- "Exidy Sorcerer". -/
def exidySorcerer : List Char :=
  ['E', 'x', 'i', 'd', 'y', ' ', 'S', 'o', 'r', 'c', 'e', 'r', 'e', 'r']

/-- "Science of Cambridge MK14". -/
def scienceOfCambridgeMK14 : List Char :=
  ['S', 'c', 'i', 'e', 'n', 'c', 'e', ' ', 'o', 'f', ' ',
   'C', 'a', 'm', 'b', 'r', 'i', 'd', 'g', 'e', ' ', 'M', 'K', '1', '4']

/-- "MK14". -/
def mk14 : List Char := ['M', 'K', '1', '4']

/-- The loop body of `preprocessSystemData`: drop "Apple II" and
"Exidy Sorcerer", write "Science of Cambridge MK14" under the key "MK14",
copy every other entry unchanged. -/
def ppStep (result : SysMap) (entry : List Char × List Int) : SysMap :=
  if entry.1 = appleII ∨ entry.1 = exidySorcerer then result
  else if entry.1 = scienceOfCambridgeMK14 then setSys result mk14 entry.2
  else setSys result entry.1 entry.2

/-- `preprocessSystemData` from main.go: iterate over the input map (the
list order is the iteration order) applying `ppStep` to each entry. -/
def preprocessSystemData (systems : SysMap) : SysMap :=
  systems.foldl ppStep []

/-- Does `ppStep` on an entry named `n` store a series under output key `k`?
(Used to characterise `preprocessSystemData`.) -/
def writesTo (n k : List Char) : Bool :=
  !(n = appleII || n = exidySorcerer) &&
    ((if n = scienceOfCambridgeMK14 then mk14 else n) = k)

/-- The series stored last under output key `k` while folding `ppStep` over
`lst` (later writes win, hence the search from the right). -/
def lastWrite (lst : SysMap) (k : List Char) : Option (List Int) :=
  (lst.reverse.find? (fun e => writesTo e.1 k)).map Prod.snd

/-- The loop of `systemHasPriceData`: does any index in
`[lo, hi]` have `prices[idx-minDate] > 0`?  (In every call the source makes,
`lo ≥ minDate` and `hi-minDate < prices.length`, so the `getD` default is
never consulted.) -/
def anyPricePos (lo hi minDate : Int) (prices : List Int) : Bool :=
  (List.range (hi - lo + 1).toNat).any
    (fun k => prices.getD (lo + (k : Int) - minDate).toNat 0 > 0)

/-- `systemHasPriceData` from main.go: the guard `outputWikidata` uses to
decide whether to emit a system's row in a five-year block.  It scans the
indices from `max(toIndex(startYear,1), minDate)` up to
`min(toIndex(endYear,1), maxDate)` — note quarter 1 of `endYear`. -/
def systemHasPriceData (startYear endYear minDate maxDate : Int)
    (prices : List Int) : Bool :=
  let lowestIndex := buildIndexFromYearAndQuarter startYear 1
  let lowestValidIndex := max lowestIndex minDate
  let highestIndex := buildIndexFromYearAndQuarter endYear 1
  let highestValidIndex := min highestIndex maxDate
  anyPricePos lowestValidIndex highestValidIndex minDate prices

/-- Both row-invalidating fields parse cleanly: `handle_yyyy_mm` and
`handle_price` each return a value with a nil error (the condition under
which `parseData` keeps a row). -/
def rowParsesOK (row : RawRow) : Bool :=
  match handle_yyyy_mm row.yyyy_mm, handle_price row.price with
  | some (_, _, none), some (_, none) => true
  | _, _ => false

/-- "ZX81". -/
def zx81 : List Char := ['Z', 'X', '8', '1']

/-- "Mag". -/
def magTitle : List Char := ['M', 'a', 'g']

/-- The header row of the end-to-end example. -/
def exHeader : RawRow := ⟨sourceMarker, [], [], [], [], [], [], []⟩

/-- Example data row: Mag, 1982-03, p12, ZX81, £70, , N, . -/
def exRow1 : RawRow :=
  ⟨magTitle, ['1', '9', '8', '2', '-', '0', '3'], ['p', '1', '2'],
   zx81, ['£', '7', '0'], [], ['N'], []⟩

/-- Example data row: Mag, 1982-06, p15, ZX81, £65, , N, . -/
def exRow2 : RawRow :=
  ⟨magTitle, ['1', '9', '8', '2', '-', '0', '6'], ['p', '1', '5'],
   zx81, ['£', '6', '5'], [], ['N'], []⟩

/-- The end-to-end example input of the spec. -/
def exData : List RawRow := [exHeader, exRow1, exRow2]

/-- A data row whose page field is "p9999": every field but the page parses
cleanly. -/
def pageRow : RawRow :=
  ⟨magTitle, ['1', '9', '8', '2', '-', '0', '3'], ['p', '9', '9', '9', '9'],
   zx81, ['£', '7', '0'], [], ['N'], []⟩

/-- Input whose single data row has page text "p9999". -/
def pageData : List RawRow := [exHeader, pageRow]

/-- A data row whose price field is "$50" (wrong currency sign): the price
parse fails, so `parseData` must discard the row. -/
def dollarRow : RawRow :=
  ⟨magTitle, ['1', '9', '8', '2', '-', '0', '6'], ['p', '1', '5'],
   zx81, ['$', '5', '0'], [], ['N'], []⟩

/-- Input with one good data row and one wrong-currency row. -/
def mixedData : List RawRow := [exHeader, exRow1, dollarRow]

/-- A price series over the 1980Q1..1984Q4 range (20 slots) whose only
positive entry sits in the 1984-Q2 slot (position 17). -/
def lateQuarterPrices : List Int := List.replicate 17 0 ++ [100, 0, 0]

/-- Two adverts for the same system and quarter (1982-Q1), prices 500 then
300. -/
def advert500 : advertInfo :=
  ⟨2, magTitle, 1982, 3, 12, zx81, 500, ['N'], []⟩

/-- Second advert of the 500/300 pair. -/
def advert300 : advertInfo :=
  ⟨3, magTitle, 1982, 2, 15, zx81, 300, ['N'], []⟩

/-- "Atom" (an arbitrary untouched system name). -/
def atomName : List Char := ['A', 't', 'o', 'm']

/-- A system map containing a renamed system, a suppressed system and an
untouched one. -/
def ppExample : SysMap :=
  [(scienceOfCambridgeMK14, [9]), (appleII, [3]), (atomName, [7])]

/-- A system map containing both a plain "MK14" entry and a
"Science of Cambridge MK14" entry (a rename collision). -/
def ppCollision : SysMap :=
  [(mk14, [1]), (scienceOfCambridgeMK14, [2])]

/-! ### Support lemmas about the map embedding -/

theorem lookupSys_setSys_self (m : SysMap) (k : List Char) (v : List Int) :
    lookupSys (setSys m k v) k = some v := by
  induction m with
  | nil => simp [setSys, lookupSys]
  | cons e rest ih =>
    obtain ⟨k', v'⟩ := e
    by_cases h : k = k' <;> simp [setSys, lookupSys, h, ih]

theorem lookupSys_setSys_other (m : SysMap) (k k' : List Char) (v : List Int)
    (h : k' ≠ k) : lookupSys (setSys m k v) k' = lookupSys m k' := by
  induction m with
  | nil => simp [setSys, lookupSys, h]
  | cons e rest ih =>
    obtain ⟨ke, ve⟩ := e
    by_cases hk : k = ke
    · subst hk
      simp [setSys, lookupSys, h]
    · simp only [setSys, if_neg hk]
      by_cases hk' : k' = ke <;> simp [lookupSys, hk', ih]

theorem lookupSys_eq_none_iff (m : SysMap) (k : List Char) :
    lookupSys m k = none ↔ ∀ e ∈ m, e.1 ≠ k := by
  induction m with
  | nil => simp [lookupSys]
  | cons e rest ih =>
    obtain ⟨ke, ve⟩ := e
    by_cases h : k = ke
    · subst h
      constructor
      · intro hc
        simp [lookupSys] at hc
      · intro hall
        exact absurd rfl (hall (k, ve) (by simp))
    · simp only [lookupSys, if_neg h, ih, List.mem_cons]
      constructor
      · intro hall e he
        rcases he with rfl | he
        · exact fun hk => h hk.symm
        · exact hall e he
      · intro hall e he
        exact hall e (Or.inr he)

/-! ### Claim theorems (part 1) -/

/-- Claim C1 (code bug): with `minDate` the 1980-Q1 index and `maxDate` the
1984-Q4 index, the series `lateQuarterPrices` has a stored price > 0 at the
1984-Q2 slot — a quarter inside the five-year block 1980..1984 and inside
`[minDate, maxDate]` — yet `systemHasPriceData` (the guard `outputWikidata`
uses to decide whether to emit the system's row) returns `false`, because it
scans only up to quarter 1 of the block's last year.  The claim says the row
is omitted only when NO quarter of the block's clamped range has a stored
price > 0. -/
theorem c1_guard_misses_late_quarters :
    systemHasPriceData 1980 1984 (buildIndexFromYearAndQuarter 1980 1)
      (buildIndexFromYearAndQuarter 1984 4) lateQuarterPrices = false ∧
    buildIndexFromYearAndQuarter 1980 1 ≤ buildIndexFromYearAndQuarter 1984 2 ∧
    buildIndexFromYearAndQuarter 1984 2 ≤ buildIndexFromYearAndQuarter 1984 4 ∧
    lateQuarterPrices.getD
      (buildIndexFromYearAndQuarter 1984 2 -
        buildIndexFromYearAndQuarter 1980 1).toNat 0 > 0 := by
  decide

/-- Claim C2 (code bug): `handle_yyyy_mm` is not total — on the empty string
(and any input shorter than 5 characters) the Go code panics at the slice
`yyyy_mm[4:5]` instead of returning a FormatError.  `none` is the panic
outcome of the embedding. -/
theorem c2_short_date_input_panics :
    handle_yyyy_mm [] = none ∧
    handle_yyyy_mm ['1', '9', '8', '2'] = none := by
  decide

/-- Claim C3 (code bug): `handle_price` is not total — on the empty string
the Go code panics at the index `[]rune(price_text)[0]` instead of
returning a FormatError.  (On non-empty input with a wrong first code point
it does return an error: "$50" is shown as the well-behaved case.) -/
theorem c3_empty_price_input_panics :
    handle_price [] = none ∧
    handle_price ['$', '5', '0'] = some (-1, some ParseErr.badCurrency) := by
  decide

/-- Claim C4 (code bug): `handle_price` accepts a negative amount — for
"£-5" it returns the price -5 with a nil error, because `strconv.Atoi`
parses signed integers and only the upper bound `max_price` is checked.
The comma-stripping / dot-truncating behaviour of the claim does hold:
"£1,234.50" yields 1234. -/
theorem c4_negative_price_accepted :
    handle_price ['£', '-', '5'] = some (-5, none) ∧
    handle_price ['£', '1', ',', '2', '3', '4', '.', '5', '0'] =
      some (1234, none) := by
  decide

/-- Claim C5 counterexample: on the input whose single data row has page
text "p9999", the produced record carries page 9999 — neither an integer in
[0, 500] nor the error sentinel -1000 that `handle_page_number` uses for
unparsable page text.  (`parseData` stores whatever value the page parser
returned, even when it also returned an error.) -/
theorem c5_page_value_escapes_bounds :
    (parseData pageData).map (fun x => x.1.map advertInfo.page) =
      some [9999] ∧
    ¬(((0 : Int) ≤ 9999 ∧ (9999 : Int) ≤ 500) ∨ (9999 : Int) = -1000) := by
  decide

/-- Claim C9: end-to-end example.  On the header row followed by the two
ZX81 rows, the pipeline (`parseData`, then `buildBySystem`, then
`preprocessSystemData`) yields records only for the two data rows (CSV rows
2 and 3 — the header contributes none), the date range 1982-Q1..1982-Q2,
and exactly one system "ZX81" whose series has length 2 with 70 in the
1982-Q1 slot and 65 in the 1982-Q2 slot. -/
theorem c9_end_to_end_pipeline :
    (parseData exData).map
      (fun x => (x.1.map advertInfo.row, x.2.1, x.2.2,
        preprocessSystemData (buildBySystem x.1 x.2.1 x.2.2))) =
    some ([2, 3], buildIndexFromYearAndQuarter 1982 1,
      buildIndexFromYearAndQuarter 1982 2, [(zx81, [70, 65])]) := by
  rfl

/-- Claim C10 counterexample: when the input mapping contains both a plain
"MK14" entry (series [1]) and a "Science of Cambridge MK14" entry (series
[2]), and the map iteration visits them in that order, the rename
overwrites the pre-existing "MK14" entry: the output maps "MK14" to [2],
not to the input's [1]. -/
theorem c10_mk14_collision :
    lookupSys ppCollision mk14 = some [1] ∧
    lookupSys (preprocessSystemData ppCollision) mk14 = some [2] := by
  decide

/-- Claim C6: the quarter-index functions are mutually inverse —
encoding after decoding is the identity on non-negative indices, and
decoding after encoding is the identity on pairs with year ≥ 0 and quarter
in {1, 2, 3, 4}. -/
theorem c6_quarter_index_bijection :
    (∀ i : Int, 0 ≤ i →
      buildIndexFromYearAndQuarter (decodeIndexByQuarter i).1
        (decodeIndexByQuarter i).2 = i) ∧
    (∀ y q : Int, 0 ≤ y → (q = 1 ∨ q = 2 ∨ q = 3 ∨ q = 4) →
      decodeIndexByQuarter (buildIndexFromYearAndQuarter y q) = (y, q)) := by
  constructor
  · intro i _
    simp only [decodeIndexByQuarter, buildIndexFromYearAndQuarter]
    ring
  · intro y q hy hq
    have hnn : 0 ≤ y * 4 + (q - 1) := by rcases hq with h | h | h | h <;> omega
    have ht : Int.tdiv (y * 4 + (q - 1)) 4 = (y * 4 + (q - 1)) / 4 :=
      Int.tdiv_eq_ediv hnn (by norm_num)
    simp only [decodeIndexByQuarter, buildIndexFromYearAndQuarter, ht,
      Prod.mk.injEq]
    rcases hq with h | h | h | h <;> subst h <;> omega

/-- Witness for C6 at the concrete index 7929 and pair (1982, 2). -/
theorem c6_quarter_index_bijection_witness :
    buildIndexFromYearAndQuarter (decodeIndexByQuarter 7929).1
      (decodeIndexByQuarter 7929).2 = 7929 ∧
    decodeIndexByQuarter (buildIndexFromYearAndQuarter 1982 2) = (1982, 2) :=
  ⟨c6_quarter_index_bijection.1 7929 (by decide),
   c6_quarter_index_bijection.2 1982 2 (by decide) (Or.inr (Or.inl rfl))⟩

/-! ### Support lemmas for the aggregator -/

theorem getD_set_self (l : List Int) (n : Nat) (v : Int) (h : n < l.length) :
    (l.set n v).getD n 0 = v := by
  induction l generalizing n with
  | nil => simp at h
  | cons a t ih =>
    cases n with
    | zero => simp
    | succ n =>
      simp only [List.set, List.getD_cons_succ]
      exact ih n (by simpa using h)

theorem getD_replicate_zero (L n : Nat) :
    (List.replicate L (0 : Int)).getD n 0 = 0 := by
  induction L generalizing n with
  | zero => simp
  | succ L ih =>
    cases n with
    | zero => simp [List.replicate]
    | succ n => simp [List.replicate, ih]

theorem foldl_min_mem (l : List Int) : ∀ a : Int, l.foldl min a ∈ a :: l := by
  induction l with
  | nil =>
    intro a
    simp
  | cons b t ih =>
    intro a
    rw [List.foldl_cons]
    rcases List.mem_cons.mp (ih (min a b)) with h | h
    · rcases min_choice a b with hm | hm
      · rw [h, hm]
        exact List.mem_cons_self _ _
      · rw [h, hm]
        exact List.mem_cons_of_mem _ (List.mem_cons_self _ _)
    · exact List.mem_cons_of_mem _ (List.mem_cons_of_mem _ h)

theorem foldl_min_le (l : List Int) :
    ∀ a p : Int, p ∈ a :: l → l.foldl min a ≤ p := by
  induction l with
  | nil =>
    intro a p hp
    simp only [List.mem_singleton] at hp
    simp [hp]
  | cons b t ih =>
    intro a p hp
    rw [List.foldl_cons]
    have hmin : t.foldl min (min a b) ≤ min a b :=
      ih (min a b) (min a b) (List.mem_cons_self _ _)
    rcases List.mem_cons.mp hp with h | h
    · exact le_trans hmin (le_trans (min_le_left _ _) (le_of_eq h.symm))
    · rcases List.mem_cons.mp h with h2 | h2
      · exact le_trans hmin (le_trans (min_le_right _ _) (le_of_eq h2.symm))
      · exact ih (min a b) p (List.mem_cons_of_mem _ h2)

/-- Main induction for C8: once a system's slot holds a positive value, the
aggregation loop keeps folding `min` into it — provided all remaining
records are for that system and slot and have positive prices. -/
theorem buildBySystemGo_min (recs : List advertInfo) :
    ∀ (mn mx : Int) (m : SysMap) (s : List Char) (pos : Nat)
      (series : List Int),
    (∀ r ∈ recs, r.system = s ∧ (buildIndexFromAdvertInfo r - mn).toNat = pos ∧
      0 < r.price) →
    lookupSys m s = some series →
    pos < series.length →
    0 < series.getD pos 0 →
    ∃ fin, lookupSys (buildBySystemGo recs mn mx m) s = some fin ∧
      fin.length = series.length ∧
      fin.getD pos 0 = (recs.map advertInfo.price).foldl min (series.getD pos 0) := by
  induction recs with
  | nil =>
    intro mn mx m s pos series hall hm hlen hpos
    exact ⟨series, by simpa [buildBySystemGo] using hm, rfl, by simp⟩
  | cons a rest ih =>
    intro mn mx m s pos series hall hm hlen hpos
    obtain ⟨hsys, hposa, hpr⟩ := hall a (List.mem_cons_self _ _)
    have hall' := fun r hr => hall r (List.mem_cons_of_mem _ hr)
    rw [List.map_cons, List.foldl_cons]
    by_cases hlt : a.price < series.getD pos 0
    · have hstep : buildBySystemGo (a :: rest) mn mx m =
          buildBySystemGo rest mn mx (setSys m s (series.set pos a.price)) := by
        simp only [buildBySystemGo, hsys, hm, hposa, Option.getD_some]
        rw [if_pos (Or.inl hlt)]
      rw [hstep]
      have hlook := lookupSys_setSys_self m s (series.set pos a.price)
      have hlen' : pos < (series.set pos a.price).length := by
        simpa [List.length_set] using hlen
      have hget : (series.set pos a.price).getD pos 0 = a.price :=
        getD_set_self series pos a.price hlen
      obtain ⟨fin, h1, h2, h3⟩ :=
        ih mn mx (setSys m s (series.set pos a.price)) s pos
          (series.set pos a.price) hall' hlook hlen' (by rw [hget]; exact hpr)
      refine ⟨fin, h1, by simpa [List.length_set] using h2, ?_⟩
      rw [h3, hget, min_eq_right (le_of_lt hlt)]
    · have hstep : buildBySystemGo (a :: rest) mn mx m =
          buildBySystemGo rest mn mx m := by
        simp only [buildBySystemGo, hsys, hm, hposa, Option.getD_some]
        rw [if_neg]
        push_neg
        exact ⟨not_lt.mp hlt, hpos⟩
      rw [hstep]
      obtain ⟨fin, h1, h2, h3⟩ := ih mn mx m s pos series hall' hm hlen hpos
      refine ⟨fin, h1, h2, ?_⟩
      rw [h3, min_eq_left (not_lt.mp hlt)]

/-! ### Support lemmas for the record builder -/

theorem parseDataGo_acc_subset (lst : List RawRow) :
    ∀ (i : Nat) (srch : Bool) (acc : List advertInfo) (mn mx : Int)
      (out : List advertInfo) (mn' mx' : Int),
    parseDataGo lst i srch acc mn mx = some (out, mn', mx') →
    ∀ r ∈ acc, r ∈ out := by
  induction lst with
  | nil =>
    intro i srch acc mn mx out mn' mx' h r hr
    have hout : acc = out := by
      simp only [parseDataGo, Option.some.injEq, Prod.mk.injEq] at h
      exact h.1
    exact hout ▸ hr
  | cons row rest ih =>
    intro i srch acc mn mx out mn' mx' h r hr
    cases srch with
    | true =>
      simp only [parseDataGo] at h
      exact ih _ _ _ _ _ _ _ _ h r hr
    | false =>
      simp only [parseDataGo] at h
      split at h
      · exact ih _ _ _ _ _ _ _ _ h r hr
      · split at h
        · exact absurd h (by simp)
        · split at h
          · exact absurd h (by simp)
          · split at h
            · exact ih _ _ _ _ _ _ _ _ h r hr
            · exact ih _ _ _ _ _ _ _ _ h r (List.mem_append_left _ hr)

theorem parseDataGo_provenance (lst : List RawRow) :
    ∀ (i : Nat) (srch : Bool) (acc : List advertInfo) (mn mx : Int)
      (out : List advertInfo) (mn' mx' : Int),
    parseDataGo lst i srch acc mn mx = some (out, mn', mx') →
    ∀ r ∈ out, r ∈ acc ∨
      ((i : Int) < r.row ∧ ∃ row ∈ lst,
        r.page = (handle_page_number row.page_num).1) := by
  induction lst with
  | nil =>
    intro i srch acc mn mx out mn' mx' h r hr
    have hout : acc = out := by
      simp only [parseDataGo, Option.some.injEq, Prod.mk.injEq] at h
      exact h.1
    exact Or.inl (hout ▸ hr)
  | cons row rest ih =>
    intro i srch acc mn mx out mn' mx' h r hr
    have weaken : r ∈ acc ∨
        (((i : Nat) + 1 : Int) < r.row ∧ ∃ rw ∈ rest,
          r.page = (handle_page_number rw.page_num).1) →
        r ∈ acc ∨ ((i : Int) < r.row ∧ ∃ rw ∈ row :: rest,
          r.page = (handle_page_number rw.page_num).1) := by
      rintro (hl | ⟨hlt, rw, hrw, hpg⟩)
      · exact Or.inl hl
      · exact Or.inr ⟨by omega, rw, List.mem_cons_of_mem _ hrw, hpg⟩
    cases srch with
    | true =>
      simp only [parseDataGo] at h
      exact weaken (ih _ _ _ _ _ _ _ _ h r hr)
    | false =>
      simp only [parseDataGo] at h
      split at h
      · exact weaken (ih _ _ _ _ _ _ _ _ h r hr)
      · rename_i hsysne
        rcases hd : handle_yyyy_mm row.yyyy_mm with _ | ⟨year, month, dateErr⟩
        · simp only [hd] at h
          exact absurd h (by simp)
        · simp only [hd] at h
          rcases hp : handle_price row.price with _ | ⟨price, priceErr⟩
          · simp only [hp] at h
            exact absurd h (by simp)
          · simp only [hp] at h
            by_cases herr : dateErr.isSome ∨ priceErr.isSome
            · rw [if_pos herr] at h
              exact weaken (ih _ _ _ _ _ _ _ _ h r hr)
            · rw [if_neg herr] at h
              rcases ih _ _ _ _ _ _ _ _ h r hr with hl | ⟨hlt, rw, hrw, hpg⟩
              · rcases List.mem_append.mp hl with hl | hl
                · exact Or.inl hl
                · -- r is the freshly built advert for the head row
                  have hr' : r = ⟨(i : Int) + 1, row.magazine, year, month,
                      (handle_page_number row.page_num).1, row.system, price,
                      row.kit, row.board⟩ := by
                    simpa using hl
                  refine Or.inr ⟨?_, row, List.mem_cons_self _ _, ?_⟩
                  · rw [hr']
                    show (i : Int) < (i : Int) + 1
                    omega
                  · rw [hr']
              · exact Or.inr ⟨by push_cast at hlt ⊢; omega,
                  rw, List.mem_cons_of_mem _ hrw, hpg⟩

theorem handle_page_number_ok_bounds (s : List Char) :
    (handle_page_number s).2 = none →
    0 ≤ (handle_page_number s).1 ∧ (handle_page_number s).1 ≤ max_page_num := by
  simp only [handle_page_number]
  split
  · intro h
    exact absurd h (by simp)
  · split
    · intro h
      exact absurd h (by simp)
    · simp only []
      intro h
      split at h
      · exact absurd h (by simp)
      · rename_i hrange
        push_neg at hrange
        exact hrange

/-- Claim C5 (amended): every record in the output of `parseData` carries
exactly the page value returned by `handle_page_number` for its source
row's page text — in [0, 500] when the parser reported no error, but on a
parser error the stored value can be the sentinel -1000, 0, or the parsed
out-of-range value itself. -/
theorem c5_page_is_handler_value (data : List RawRow)
    (out : List advertInfo) (mn mx : Int)
    (h : parseData data = some (out, mn, mx)) :
    ∀ r ∈ out, ∃ row ∈ data,
      r.page = (handle_page_number row.page_num).1 ∧
      ((handle_page_number row.page_num).2 = none →
        0 ≤ r.page ∧ r.page ≤ max_page_num) := by
  intro r hr
  rcases parseDataGo_provenance data 0 true [] ((max_year + 1) * 4) (-1)
      out mn mx h r hr with hl | ⟨_, row, hrow, hpg⟩
  · exact absurd hl (by simp)
  · refine ⟨row, hrow, hpg, ?_⟩
    intro hnone
    rw [hpg]
    exact handle_page_number_ok_bounds row.page_num hnone

/-- Witness for C5 (amended) on the "p9999" input: the record's page is the
page-parser value 9999. -/
theorem c5_page_is_handler_value_witness :
    ∃ row ∈ pageData,
      (advertInfo.page ⟨2, magTitle, 1982, 3, 9999, zx81, 70, ['N'], []⟩) =
        (handle_page_number row.page_num).1 ∧
      ((handle_page_number row.page_num).2 = none →
        0 ≤ (advertInfo.page ⟨2, magTitle, 1982, 3, 9999, zx81, 70, ['N'], []⟩) ∧
        (advertInfo.page ⟨2, magTitle, 1982, 3, 9999, zx81, 70, ['N'], []⟩) ≤
          max_page_num) :=
  c5_page_is_handler_value pageData
    [⟨2, magTitle, 1982, 3, 9999, zx81, 70, ['N'], []⟩] 7928 7928 rfl
    ⟨2, magTitle, 1982, 3, 9999, zx81, 70, ['N'], []⟩ (by simp)

/-- Main induction for C7: while processing the remaining rows
`pre ++ row :: post` from position `i`, a record numbered for `row`'s
position ends up in the output exactly when `row`'s date and price fields
parse cleanly — provided `row` has a non-empty system field and, if the
header is still being searched for, some row of `pre` is the marker. -/
theorem parseDataGo_row_iff (pre : List RawRow) :
    ∀ (post : List RawRow) (row : RawRow) (i : Nat) (srch : Bool)
      (acc : List advertInfo) (mn mx : Int) (out : List advertInfo)
      (mn' mx' : Int),
    parseDataGo (pre ++ row :: post) i srch acc mn mx = some (out, mn', mx') →
    (∀ r ∈ acc, r.row ≤ (i : Int)) →
    (srch = true → ∃ hdr ∈ pre, hdr.magazine = sourceMarker) →
    row.system ≠ [] →
    ((∃ r ∈ out, r.row = (i : Int) + pre.length + 1) ↔
      rowParsesOK row = true) := by
  induction pre with
  | nil =>
    intro post row i srch acc mn mx out mn' mx' h hacc hhdr hsysne
    simp only [List.length_nil, Nat.cast_zero, add_zero]
    cases srch with
    | true =>
      obtain ⟨hdr, hmem, _⟩ := hhdr rfl
      exact absurd hmem (by simp)
    | false =>
      rw [List.nil_append] at h
      simp only [parseDataGo] at h
      rw [if_neg (fun hl => hsysne (List.length_eq_zero.mp hl))] at h
      rcases hd : handle_yyyy_mm row.yyyy_mm with _ | ⟨year, month, dateErr⟩
      · simp only [hd] at h
        exact absurd h (by simp)
      · simp only [hd] at h
        rcases hp : handle_price row.price with _ | ⟨price, priceErr⟩
        · simp only [hp] at h
          exact absurd h (by simp)
        · simp only [hp] at h
          by_cases herr : dateErr.isSome ∨ priceErr.isSome
          · rw [if_pos herr] at h
            have hfalse : rowParsesOK row = false := by
              rcases dateErr with _ | e1
              · rcases priceErr with _ | e2
                · simp at herr
                · simp [rowParsesOK, hd, hp]
              · simp [rowParsesOK, hd, hp]
            apply iff_of_false
            · rintro ⟨r, hr, hrow⟩
              rcases parseDataGo_provenance post (i + 1) false acc mn mx
                  out mn' mx' h r hr with hl | ⟨hlt, _⟩
              · have := hacc r hl
                omega
              · push_cast at hlt
                omega
            · rw [hfalse]
              simp
          · have hboth : dateErr = none ∧ priceErr = none := by
              rcases dateErr with _ | e1
              · rcases priceErr with _ | e2
                · exact ⟨rfl, rfl⟩
                · exact absurd (Or.inr (by simp)) herr
              · exact absurd (Or.inl (by simp)) herr
            obtain ⟨hde, hpe⟩ := hboth
            subst hde
            subst hpe
            rw [if_neg herr] at h
            apply iff_of_true
            · refine ⟨⟨(i : Int) + 1, row.magazine, year, month,
                (handle_page_number row.page_num).1, row.system, price,
                row.kit, row.board⟩, ?_, rfl⟩
              exact parseDataGo_acc_subset post (i + 1) false _ _ _ out mn' mx'
                h _ (List.mem_append_right _ (List.mem_singleton.mpr rfl))
            · simp [rowParsesOK, hd, hp]
  | cons p pre' ih =>
    intro post row i srch acc mn mx out mn' mx' h hacc hhdr hsysne
    have harith : ((i + 1 : Nat) : Int) + pre'.length + 1 =
        (i : Int) + ((p :: pre').length : Int) + 1 := by
      simp only [List.length_cons]
      push_cast
      ring
    have hacc' : ∀ r ∈ acc, r.row ≤ ((i + 1 : Nat) : Int) := by
      intro r hr
      have := hacc r hr
      push_cast
      omega
    cases srch with
    | true =>
      rw [List.cons_append] at h
      simp only [parseDataGo] at h
      by_cases hmk : p.magazine = sourceMarker
      · simp only [hmk, decide_eq_true_eq, decide_True, Bool.not_true] at h
        have hiff := ih post row (i + 1) false acc mn mx out mn' mx' h hacc'
          (fun hf => absurd hf (by simp)) hsysne
        rw [harith] at hiff
        exact hiff
      · have hflag : (!(p.magazine = sourceMarker : Bool)) = true := by
          simp [hmk]
        rw [hflag] at h
        have hhdr' : ∃ hdr ∈ pre', hdr.magazine = sourceMarker := by
          obtain ⟨hdr, hmem, hm⟩ := hhdr rfl
          rcases List.mem_cons.mp hmem with rfl | hmem'
          · exact absurd hm hmk
          · exact ⟨hdr, hmem', hm⟩
        have hiff := ih post row (i + 1) true acc mn mx out mn' mx' h hacc'
          (fun _ => hhdr') hsysne
        rw [harith] at hiff
        exact hiff
    | false =>
      rw [List.cons_append] at h
      simp only [parseDataGo] at h
      by_cases hsl : p.system.length = 0
      · rw [if_pos hsl] at h
        have hiff := ih post row (i + 1) false acc mn mx out mn' mx' h hacc'
          (fun hf => absurd hf (by simp)) hsysne
        rw [harith] at hiff
        exact hiff
      · rw [if_neg hsl] at h
        rcases hd : handle_yyyy_mm p.yyyy_mm with _ | ⟨year, month, dateErr⟩
        · simp only [hd] at h
          exact absurd h (by simp)
        · simp only [hd] at h
          rcases hp : handle_price p.price with _ | ⟨price, priceErr⟩
          · simp only [hp] at h
            exact absurd h (by simp)
          · simp only [hp] at h
            by_cases herr : dateErr.isSome ∨ priceErr.isSome
            · rw [if_pos herr] at h
              have hiff := ih post row (i + 1) false acc mn mx out mn' mx' h
                hacc' (fun hf => absurd hf (by simp)) hsysne
              rw [harith] at hiff
              exact hiff
            · rw [if_neg herr] at h
              have hacc2 : ∀ r ∈ acc ++ [(⟨(i : Int) + 1, p.magazine, year,
                  month, (handle_page_number p.page_num).1, p.system, price,
                  p.kit, p.board⟩ : advertInfo)],
                  r.row ≤ ((i + 1 : Nat) : Int) := by
                intro r hr
                rcases List.mem_append.mp hr with hl | hl
                · exact hacc' r hl
                · have hr' : r = ⟨(i : Int) + 1, p.magazine, year, month,
                      (handle_page_number p.page_num).1, p.system, price,
                      p.kit, p.board⟩ := by simpa using hl
                  rw [hr']
                  show (i : Int) + 1 ≤ ((i + 1 : Nat) : Int)
                  push_cast
                  omega
              have hiff := ih post row (i + 1) false _ _ _ out mn' mx' h
                hacc2 (fun hf => absurd hf (by simp)) hsysne
              rw [harith] at hiff
              exact hiff

/-- Claim C7: for every raw row strictly after a header-marker row and with
a non-empty system field, a record numbered for that row appears in
`parseData`'s output exactly when both the year-month field and the price
field parse with no error; a page failure alone never discards the row, and
a date or price failure always does. -/
theorem c7_record_kept_iff (data : List RawRow) (out : List advertInfo)
    (mn mx : Int) (pre post : List RawRow) (row : RawRow)
    (h : parseData data = some (out, mn, mx))
    (hsplit : data = pre ++ row :: post)
    (hhdr : ∃ hdr ∈ pre, hdr.magazine = sourceMarker)
    (hsysne : row.system ≠ []) :
    ((∃ r ∈ out, r.row = (pre.length : Int) + 1) ↔
      rowParsesOK row = true) := by
  subst hsplit
  have hiff := parseDataGo_row_iff pre post row 0 true []
    ((max_year + 1) * 4) (-1) out mn mx h (by simp) (fun _ => hhdr) hsysne
  simpa using hiff

/-- Witness for C7 on the input header / good row / wrong-currency row: the
good row (CSV row 2) yields a record, obtained through the iff. -/
theorem c7_record_kept_iff_witness :
    ∃ r ∈ [(⟨2, magTitle, 1982, 3, 12, zx81, 70, ['N'], []⟩ : advertInfo)],
      advertInfo.row r = ((List.length [exHeader] : Nat) : Int) + 1 :=
  (c7_record_kept_iff mixedData
      [⟨2, magTitle, 1982, 3, 12, zx81, 70, ['N'], []⟩] 7928 7928
      [exHeader] [dollarRow] exRow1 rfl rfl
      ⟨exHeader, List.mem_singleton.mpr rfl, rfl⟩ (by decide)).mpr
    (by decide)

/-- Claim C8: for a sequence of records all for the same system and quarter
slot, all with strictly positive prices, `buildBySystem` stores that
system's and slot's minimum price — stated order-independently (the stored
value is one of the prices and is a lower bound of all of them). -/
theorem c8_min_price_stored (recs : List advertInfo) (mn mx d : Int)
    (s : List Char) (hne : recs ≠ [])
    (hall : ∀ r ∈ recs, r.system = s ∧ buildIndexFromAdvertInfo r = d ∧
      0 < r.price)
    (hlo : mn ≤ d) (hhi : d ≤ mx) :
    ∃ series, lookupSys (buildBySystem recs mn mx) s = some series ∧
      series.getD (d - mn).toNat 0 ∈ recs.map advertInfo.price ∧
      ∀ p ∈ recs.map advertInfo.price, series.getD (d - mn).toNat 0 ≤ p := by
  match recs, hne with
  | a :: rest, _ =>
    obtain ⟨hsys, hidx, hpr⟩ := hall a (List.mem_cons_self _ _)
    have hall' : ∀ r ∈ rest, r.system = s ∧
        (buildIndexFromAdvertInfo r - mn).toNat = (d - mn).toNat ∧
        0 < r.price := by
      intro r hr
      obtain ⟨h1, h2, h3⟩ := hall r (List.mem_cons_of_mem _ hr)
      exact ⟨h1, by rw [h2], h3⟩
    have hposL : (d - mn).toNat < (mx - mn + 1).toNat := by omega
    have h0 : lookupSys ([] : SysMap) s = none := rfl
    have h2s : setSys ([] : SysMap) s
        (List.replicate (mx - mn + 1).toNat 0) =
        [(s, List.replicate (mx - mn + 1).toNat 0)] := rfl
    have h1l : lookupSys [(s, List.replicate (mx - mn + 1).toNat 0)] s =
        some (List.replicate (mx - mn + 1).toNat 0) := by
      simp [lookupSys]
    have h3s : setSys [(s, List.replicate (mx - mn + 1).toNat 0)] s
        ((List.replicate (mx - mn + 1).toNat 0).set (d - mn).toNat a.price) =
        [(s, (List.replicate (mx - mn + 1).toNat 0).set (d - mn).toNat
          a.price)] := by
      simp [setSys]
    have hstep : buildBySystem (a :: rest) mn mx =
        buildBySystemGo rest mn mx
          [(s, (List.replicate (mx - mn + 1).toNat 0).set (d - mn).toNat
            a.price)] := by
      simp only [buildBySystem, buildBySystemGo, hsys, hidx, h0, h2s, h1l,
        Option.getD_some]
      rw [if_pos (Or.inr (le_of_eq
        (getD_replicate_zero (mx - mn + 1).toNat (d - mn).toNat)))]
      rw [h3s]
    rw [hstep]
    have hlook : lookupSys
        [(s, (List.replicate (mx - mn + 1).toNat 0).set (d - mn).toNat
          a.price)] s =
        some ((List.replicate (mx - mn + 1).toNat 0).set (d - mn).toNat
          a.price) := by
      simp [lookupSys]
    have hlen : (d - mn).toNat <
        ((List.replicate (mx - mn + 1).toNat 0).set (d - mn).toNat
          a.price).length := by
      simpa [List.length_set] using hposL
    have hget : ((List.replicate (mx - mn + 1).toNat 0).set (d - mn).toNat
        a.price).getD (d - mn).toNat 0 = a.price :=
      getD_set_self _ (d - mn).toNat a.price
        (by simpa [List.length_set] using hposL)
    obtain ⟨fin, h1, h2, h3⟩ :=
      buildBySystemGo_min rest mn mx _ s (d - mn).toNat _ hall' hlook hlen
        (by rw [hget]; exact hpr)
    rw [hget] at h3
    refine ⟨fin, h1, ?_, ?_⟩
    · rw [List.map_cons, h3]
      exact foldl_min_mem _ a.price
    · intro p hp
      rw [h3]
      exact foldl_min_le _ a.price p (by simpa using hp)

/-- Witness for C8: prices 500 then 300 for the same system and quarter
store a value that is one of the two prices and at most both — i.e. 300. -/
theorem c8_min_price_stored_witness :
    ∃ series,
      lookupSys (buildBySystem [advert500, advert300] 7928 7929) zx81 =
        some series ∧
      series.getD ((7928 - 7928 : Int)).toNat 0 ∈
        [advert500, advert300].map advertInfo.price ∧
      ∀ p ∈ [advert500, advert300].map advertInfo.price,
        series.getD ((7928 - 7928 : Int)).toNat 0 ≤ p :=
  c8_min_price_stored [advert500, advert300] 7928 7929 7928 zx81
    (by decide) (by decide) (by decide) (by decide)

/-! ### Support lemmas for the post-processing step -/

theorem find_ext {α : Type} (l : List α) (p q : α → Bool)
    (h : ∀ x ∈ l, p x = q x) : l.find? p = l.find? q := by
  induction l with
  | nil => rfl
  | cons a t ih =>
    simp only [List.find?]
    rw [h a (List.mem_cons_self _ _)]
    cases hq : q a with
    | true => rfl
    | false => exact ih (fun x hx => h x (List.mem_cons_of_mem _ hx))

theorem reverse_find_key (m : SysMap) (k : List Char)
    (hnd : (m.map Prod.fst).Nodup) :
    (m.reverse.find? (fun e => e.1 = k)).map Prod.snd = lookupSys m k := by
  induction m with
  | nil => rfl
  | cons e t ih =>
    obtain ⟨ke, ve⟩ := e
    simp only [List.map_cons, List.nodup_cons] at hnd
    obtain ⟨hnotin, hnd'⟩ := hnd
    simp only [List.reverse_cons]
    rw [List.find?_append]
    by_cases hk : k = ke
    · subst hk
      have hnone : t.reverse.find? (fun e => decide (e.1 = k)) = none := by
        rw [List.find?_eq_none]
        intro x hx
        simp only [decide_eq_true_eq]
        intro hxk
        exact hnotin (hxk ▸ List.mem_map_of_mem Prod.fst (List.mem_reverse.mp hx))
      rw [hnone]
      simp [lookupSys]
    · have hone : List.find? (fun e => decide (e.1 = k)) [(ke, ve)] = none := by
        rw [List.find?_eq_none]
        intro x hx
        simp only [List.mem_singleton] at hx
        subst hx
        simp only [decide_eq_true_eq]
        exact fun h => hk h.symm
      rw [hone]
      have : lookupSys ((ke, ve) :: t) k = lookupSys t k := by
        simp [lookupSys, hk]
      rw [this, ← ih hnd']
      cases hf : t.reverse.find? (fun e => decide (e.1 = k)) <;> simp [hf]

theorem lookupSys_ppStep (res : SysMap) (e : List Char × List Int)
    (k : List Char) :
    lookupSys (ppStep res e) k =
      if writesTo e.1 k then some e.2 else lookupSys res k := by
  obtain ⟨n, v⟩ := e
  show lookupSys (ppStep res (n, v)) k =
    if writesTo n k then some v else lookupSys res k
  by_cases h1 : n = appleII ∨ n = exidySorcerer
  · have hp : ppStep res (n, v) = res := by
      simp only [ppStep]
      rw [if_pos h1]
    have hw : writesTo n k = false := by
      simp only [writesTo]
      rcases h1 with h | h <;> simp [h]
    rw [hp, hw]
    simp
  · push_neg at h1
    by_cases h2 : n = scienceOfCambridgeMK14
    · subst h2
      have hp : ppStep res (scienceOfCambridgeMK14, v) = setSys res mk14 v := by
        simp only [ppStep]
        rw [if_neg (fun hc => hc.elim h1.1 h1.2)]
        simp
      by_cases h3 : mk14 = k
      · subst h3
        have hw : writesTo scienceOfCambridgeMK14 mk14 = true := by decide
        rw [hp, hw, if_pos rfl]
        exact lookupSys_setSys_self res mk14 v
      · have hw : writesTo scienceOfCambridgeMK14 k = false := by
          simp [writesTo, h3]
        rw [hp, hw]
        simp only [Bool.false_eq_true, if_false]
        exact lookupSys_setSys_other res mk14 k v (fun hkk => h3 hkk.symm)
    · have hp : ppStep res (n, v) = setSys res n v := by
        simp only [ppStep]
        rw [if_neg (fun hc => hc.elim h1.1 h1.2), if_neg h2]
      by_cases h3 : n = k
      · subst h3
        have hw : writesTo n n = true := by
          simp only [writesTo]
          rw [if_neg h2]
          simp [h1.1, h1.2]
        rw [hp, hw, if_pos rfl]
        exact lookupSys_setSys_self res n v
      · have hw : writesTo n k = false := by
          simp only [writesTo]
          rw [if_neg h2]
          simp [h3]
        rw [hp, hw]
        simp only [Bool.false_eq_true, if_false]
        exact lookupSys_setSys_other res n k v (fun hkk => h3 hkk.symm)

theorem preprocess_foldl_lookup (lst : SysMap) :
    ∀ (res : SysMap) (k : List Char),
    lookupSys (List.foldl ppStep res lst) k =
      ((lastWrite lst k).map some).getD (lookupSys res k) := by
  induction lst with
  | nil =>
    intro res k
    simp [lastWrite]
  | cons e t ih =>
    intro res k
    rw [List.foldl_cons, ih (ppStep res e) k]
    cases hlt : lastWrite t k with
    | some v =>
      have h2 : lastWrite (e :: t) k = some v := by
        simp only [lastWrite, List.reverse_cons] at hlt ⊢
        rw [List.find?_append]
        rcases hf : t.reverse.find? (fun x => writesTo x.1 k) with _ | w
        · rw [hf] at hlt
          simp at hlt
        · rw [hf] at hlt
          simp only [Option.map_some'] at hlt
          rw [hf, Option.or_some, Option.map_some', hlt]
      rw [h2]
      simp
    | none =>
      have h2 : lastWrite (e :: t) k =
          if writesTo e.1 k then some e.2 else none := by
        simp only [lastWrite, List.reverse_cons] at hlt ⊢
        rw [List.find?_append]
        rcases hf : t.reverse.find? (fun x => writesTo x.1 k) with _ | w
        · rw [hf, Option.none_or]
          cases hw : writesTo e.1 k with
          | false =>
            rw [List.find?_cons_of_neg _ (by simp [hw])]
            simp [hw]
          | true =>
            rw [List.find?_cons_of_pos _ (by simp [hw])]
            simp [hw]
        · rw [hf] at hlt
          simp at hlt
      rw [h2, lookupSys_ppStep]
      cases hw : writesTo e.1 k <;> simp

theorem preprocess_lookup_plain (systems : SysMap) (k : List Char)
    (hnd : (systems.map Prod.fst).Nodup)
    (hpt : ∀ e ∈ systems, writesTo e.1 k = decide (e.1 = k)) :
    lookupSys (preprocessSystemData systems) k = lookupSys systems k := by
  have hun : preprocessSystemData systems = List.foldl ppStep [] systems := rfl
  rw [hun, preprocess_foldl_lookup systems [] k]
  have hlw : lastWrite systems k = lookupSys systems k := by
    rw [lastWrite,
      find_ext _ _ (fun e => decide (e.1 = k))
        (fun x hx => hpt x (List.mem_reverse.mp hx)),
      reverse_find_key systems k hnd]
  rw [hlw]
  cases hv : lookupSys systems k <;> simp [lookupSys]

theorem writesTo_appleII (n : List Char) : writesTo n appleII = false := by
  by_cases h2 : n = scienceOfCambridgeMK14
  · subst h2
    decide
  · by_cases h : n = appleII
    · simp [writesTo, h]
    · simp [writesTo, h2, h]

theorem writesTo_exidy (n : List Char) : writesTo n exidySorcerer = false := by
  by_cases h2 : n = scienceOfCambridgeMK14
  · subst h2
    decide
  · by_cases h : n = exidySorcerer
    · simp [writesTo, h]
    · simp [writesTo, h2, h]

theorem writesTo_mk14 (n : List Char) :
    writesTo n mk14 =
      (decide (n = scienceOfCambridgeMK14) || decide (n = mk14)) := by
  by_cases h2 : n = scienceOfCambridgeMK14
  · subst h2
    decide
  · by_cases h3 : n = mk14
    · subst h3
      decide
    · simp [writesTo, h2, h3]

theorem writesTo_plain (n k : List Char) (h1 : k ≠ appleII)
    (h2 : k ≠ exidySorcerer) (h3 : k ≠ scienceOfCambridgeMK14)
    (h4 : k ≠ mk14) : writesTo n k = decide (n = k) := by
  by_cases ha : n = appleII
  · subst ha
    simp [writesTo, Ne.symm h1]
  · by_cases hb : n = exidySorcerer
    · subst hb
      simp [writesTo, Ne.symm h2]
    · by_cases hc : n = scienceOfCambridgeMK14
      · subst hc
        simp [writesTo, Ne.symm h3, Ne.symm h4]
      · simp [writesTo, ha, hb, hc]

/-- Claim C10 (amended): for an input mapping with distinct keys that does
not contain both "Science of Cambridge MK14" and a pre-existing "MK14"
entry, `preprocessSystemData` behaves as the claim says: the series of
"Science of Cambridge MK14" appears unchanged under "MK14", the keys
"Apple II" and "Exidy Sorcerer" are absent, and every other key maps to the
same series as in the input.  (When both keys are present the rename
overwrites one of them, whichever the map iteration visits last.) -/
theorem c10_preprocess_lookup (systems : SysMap)
    (hnd : (systems.map Prod.fst).Nodup)
    (hnocoll : lookupSys systems scienceOfCambridgeMK14 = none ∨
      lookupSys systems mk14 = none) :
    (∀ v, lookupSys systems scienceOfCambridgeMK14 = some v →
      lookupSys (preprocessSystemData systems) mk14 = some v) ∧
    lookupSys (preprocessSystemData systems) appleII = none ∧
    lookupSys (preprocessSystemData systems) exidySorcerer = none ∧
    (lookupSys systems scienceOfCambridgeMK14 = none →
      lookupSys (preprocessSystemData systems) mk14 =
        lookupSys systems mk14) ∧
    (∀ k, k ≠ appleII → k ≠ exidySorcerer → k ≠ scienceOfCambridgeMK14 →
      k ≠ mk14 →
      lookupSys (preprocessSystemData systems) k = lookupSys systems k) := by
  have hun : preprocessSystemData systems = List.foldl ppStep [] systems := rfl
  refine ⟨?_, ?_, ?_, ?_, ?_⟩
  · intro v hsoc
    have hmk_none : lookupSys systems mk14 = none := by
      rcases hnocoll with h | h
      · rw [h] at hsoc
        exact absurd hsoc (by simp)
      · exact h
    have hkeys : ∀ e ∈ systems, e.1 ≠ mk14 :=
      (lookupSys_eq_none_iff systems mk14).mp hmk_none
    rw [hun, preprocess_foldl_lookup systems [] mk14]
    have hlw : lastWrite systems mk14 = some v := by
      rw [lastWrite]
      have hpe : systems.reverse.find? (fun e => writesTo e.1 mk14) =
          systems.reverse.find?
            (fun e => decide (e.1 = scienceOfCambridgeMK14)) := by
        apply find_ext
        intro x hx
        have hxn := hkeys x (List.mem_reverse.mp hx)
        rw [writesTo_mk14 x.1]
        simp [hxn]
      rw [hpe, reverse_find_key systems scienceOfCambridgeMK14 hnd, hsoc]
    rw [hlw]
    rfl
  · rw [hun, preprocess_foldl_lookup systems [] appleII]
    have hlw : lastWrite systems appleII = none := by
      have hfind : systems.reverse.find? (fun e => writesTo e.1 appleII) =
          none :=
        List.find?_eq_none.mpr (fun x _ => by simp [writesTo_appleII])
      rw [lastWrite, hfind]
      rfl
    rw [hlw]
    rfl
  · rw [hun, preprocess_foldl_lookup systems [] exidySorcerer]
    have hlw : lastWrite systems exidySorcerer = none := by
      have hfind : systems.reverse.find?
          (fun e => writesTo e.1 exidySorcerer) = none :=
        List.find?_eq_none.mpr (fun x _ => by simp [writesTo_exidy])
      rw [lastWrite, hfind]
      rfl
    rw [hlw]
    rfl
  · intro hsoc_none
    have hkeys : ∀ e ∈ systems, e.1 ≠ scienceOfCambridgeMK14 :=
      (lookupSys_eq_none_iff systems scienceOfCambridgeMK14).mp hsoc_none
    apply preprocess_lookup_plain systems mk14 hnd
    intro e he
    rw [writesTo_mk14 e.1]
    simp [hkeys e he]
  · intro k h1 h2 h3 h4
    exact preprocess_lookup_plain systems k hnd
      (fun e _ => writesTo_plain e.1 k h1 h2 h3 h4)

/-- Witness for C10 (amended) on a concrete collision-free map: the renamed
entry lands under "MK14", "Apple II" is gone, and the untouched system
keeps its series. -/
theorem c10_preprocess_lookup_witness :
    lookupSys (preprocessSystemData ppExample) mk14 = some [9] ∧
    lookupSys (preprocessSystemData ppExample) appleII = none ∧
    lookupSys (preprocessSystemData ppExample) atomName = some [7] := by
  have h := c10_preprocess_lookup ppExample (by decide) (Or.inr (by decide))
  exact ⟨h.1 [9] (by decide), h.2.1,
    (h.2.2.2.2 atomName (by decide) (by decide) (by decide)
      (by decide)).trans (by decide)⟩

end Hcp
